import Mathlib

/-!
grafana/saml: the tracked-request JWT codec and the IdP shortcuts

A shallow embedding of `samlsp/request_tracker_jwt.go` and `samlidp/shortcut.go`.

* A Go string is a sequence of bytes. The string fields of a `TrackedRequest`, which a caller
  hands to `Encode`, and the subject claim built from its index, are Go strings (`GoString`),
  which need not be valid UTF-8. The strings of a configuration, of an HTTP request and of
  decoded JSON are text and are Lean strings.
* `time.Time` is an integer count of nanoseconds since the Unix epoch, `time.Duration` an
  integer count of nanoseconds; both are unbounded here (no wrap-around of int64).
* The compact serialisation of a JWT (three base64url segments joined by dots, the first two
  holding JSON objects) is not modelled: a signed string is the triple of its decoded segments,
  and JSON objects are records whose members may be absent.
* The functions of the JWT library the codec calls (`github.com/golang-jwt/jwt/v4`, namespace
  `jwt` below) are embedded from the library, with its default `TimePrecision` of one second.
  Its signature primitives are a parameter (`jwt.Crypto`).
* The two clocks are parameters: `Encode` reads `saml.TimeNow()`, the parser inside `Decode`
  reads `jwt.TimeFunc()`.
-/

deriving instance DecidableEq for Except

namespace time

/-- Go `time.Time`: nanoseconds since the Unix epoch. -/
abbrev Time := Int

/-- Go `time.Duration`: a count of nanoseconds. -/
abbrev Duration := Int

/-- Go `time.Second`. -/
def Second : Duration := 1000000000

/-- Go `Time.Add`. -/
def Add (t : Time) (d : Duration) : Time := t + d

/-- Go `Time.Sub`. -/
def Sub (t u : Time) : Duration := t - u

/-- Go `Time.Truncate`: round `t` down to a multiple of `d`; unchanged when `d <= 0`.
Go counts multiples from its zero time, which lies a whole number of seconds before the Unix
epoch, so for the whole-second `d` used here the multiples are those counted from the epoch. -/
def Truncate (t : Time) (d : Duration) : Time := if d ≤ 0 then t else t - t % d

/-- Go `Time.Before`. -/
def Before (t u : Time) : Bool := decide (t < u)

/-- Go `Time.After`. -/
def After (t u : Time) : Bool := decide (u < t)

/-- Go `Time.Equal`. -/
def Equal (t u : Time) : Bool := decide (t = u)

/-- Go `Time.Unix`: whole seconds since the epoch, rounded down. -/
def Unix (t : Time) : Int := t / Second

/-- Go `time.Unix(sec, 0)`. -/
def ofUnix (sec : Int) : Time := sec * Second

end time

namespace rsa

/-- Go `rsa.PublicKey`. -/
structure PublicKey where
  N : Nat
  E : Nat
deriving DecidableEq, Repr

/-- Go `rsa.PrivateKey` (the precomputed values are left out). -/
structure PrivateKey where
  PublicKey : PublicKey
  D : Nat
deriving DecidableEq, Repr

/-- Go `(*rsa.PrivateKey).Public`. -/
def PrivateKey.Public (priv : PrivateKey) : rsa.PublicKey := priv.PublicKey

end rsa

namespace utf8

/-- Go `utf8.RuneError`: the replacement character U+FFFD. -/
def RuneError : Char := Char.ofNat 0xFFFD

/-- A continuation byte: 0x80 to 0xBF. -/
def isCont (b : Nat) : Bool := decide (0x80 ≤ b ∧ b ≤ 0xBF)

/-- The accepted second bytes of a three-byte encoding, by first byte (no overlong encoding, no
surrogate). -/
def accept3 (b0 b1 : Nat) : Bool :=
  decide ((b0 = 0xE0 ∧ 0xA0 ≤ b1 ∧ b1 ≤ 0xBF) ∨ (0xE1 ≤ b0 ∧ b0 ≤ 0xEC ∧ 0x80 ≤ b1 ∧ b1 ≤ 0xBF) ∨
    (b0 = 0xED ∧ 0x80 ≤ b1 ∧ b1 ≤ 0x9F) ∨ (0xEE ≤ b0 ∧ b0 ≤ 0xEF ∧ 0x80 ≤ b1 ∧ b1 ≤ 0xBF))

/-- The accepted second bytes of a four-byte encoding, by first byte (no overlong encoding,
nothing above U+10FFFF). -/
def accept4 (b0 b1 : Nat) : Bool :=
  decide ((b0 = 0xF0 ∧ 0x90 ≤ b1 ∧ b1 ≤ 0xBF) ∨ (0xF1 ≤ b0 ∧ b0 ≤ 0xF3 ∧ 0x80 ≤ b1 ∧ b1 ≤ 0xBF) ∨
    (b0 = 0xF4 ∧ 0x80 ≤ b1 ∧ b1 ≤ 0x8F))

/-- Go `utf8.DecodeRuneInString` on the values of the bytes: the rune encoded at the start and
the number of bytes of its encoding, or `none` where Go returns `RuneError` with size 1 (the
bytes do not start with a valid encoding). -/
def DecodeRune : List Nat → Option (Char × Nat)
  | [] => none
  | b0 :: t =>
    if b0 < 0x80 then some (Char.ofNat b0, 1)
    else if 0xC2 ≤ b0 ∧ b0 ≤ 0xDF then
      match t with
      | b1 :: _ =>
        if isCont b1 then some (Char.ofNat ((b0 - 0xC0) * 64 + (b1 - 0x80)), 2) else none
      | _ => none
    else if 0xE0 ≤ b0 ∧ b0 ≤ 0xEF then
      match t with
      | b1 :: b2 :: _ =>
        if accept3 b0 b1 ∧ isCont b2 then
          some (Char.ofNat ((b0 - 0xE0) * 4096 + (b1 - 0x80) * 64 + (b2 - 0x80)), 3)
        else none
      | _ => none
    else if 0xF0 ≤ b0 ∧ b0 ≤ 0xF4 then
      match t with
      | b1 :: b2 :: b3 :: _ =>
        if accept4 b0 b1 ∧ isCont b2 ∧ isCont b3 then
          some (Char.ofNat ((b0 - 0xF0) * 262144 + (b1 - 0x80) * 4096 + (b2 - 0x80) * 64
            + (b3 - 0x80)), 4)
        else none
      | _ => none
    else none

/-- The walk of Go `encoding/json` over the bytes of a string it encodes: each validly encoded
rune is kept, each byte that does not start a valid encoding becomes U+FFFD. `skip` counts the
bytes of the current rune that are still to be passed. -/
def coerce : Nat → List Nat → List Char
  | _, [] => []
  | skip + 1, _ :: t => coerce skip t
  | 0, b :: t =>
    match DecodeRune (b :: t) with
    | some (c, size) => c :: coerce (size - 1) t
    | none => RuneError :: coerce 0 t

/-- Go `utf8.EncodeRune`, as the values of the bytes. -/
def EncodeRune (c : Char) : List Nat :=
  let n := c.toNat
  if n < 0x80 then [n]
  else if n < 0x800 then [0xC0 + n / 64, 0x80 + n % 64]
  else if n < 0x10000 then [0xE0 + n / 4096, 0x80 + n / 64 % 64, 0x80 + n % 64]
  else [0xF0 + n / 262144, 0x80 + n / 4096 % 64, 0x80 + n / 64 % 64, 0x80 + n % 64]

end utf8

/-- A Go `string`: a sequence of bytes, which need not be valid UTF-8. -/
structure GoString where
  bytes : List UInt8
deriving DecidableEq, Repr

/-- The Go string holding the UTF-8 encoding of a text: what `json.Unmarshal` stores for a JSON
string. -/
def GoString.ofText (s : String) : GoString :=
  ⟨(s.data.flatMap utf8.EncodeRune).map UInt8.ofNat⟩

/-- The text `json.Marshal` writes for a Go string: the string coerced to valid UTF-8, each
invalid byte replaced by U+FFFD. -/
def GoString.toText (g : GoString) : String :=
  ⟨utf8.coerce 0 (g.bytes.map UInt8.toNat)⟩

/-- A Go string after `json.Marshal` and `json.Unmarshal`. -/
def GoString.toValidUTF8 (g : GoString) : GoString := GoString.ofText g.toText

/-- Go `utf8.ValidString`: the bytes are the UTF-8 encoding of a text. -/
def GoString.ValidUTF8 (g : GoString) : Prop := ∃ s : String, g = GoString.ofText s

namespace samlsp

/-- Modelled from the spec: the `TrackedRequest` type is declared outside the two source files.
The spec gives it an `index` string and further application fields the codec only marshals and
unmarshals; those fields are kept as one string `Fields`. Both are Go strings. -/
structure TrackedRequest where
  Index : GoString
  Fields : GoString
deriving DecidableEq, Repr

/-- A tracked request after `json.Marshal` and `json.Unmarshal` of its strings. -/
def TrackedRequest.toValidUTF8 (r : TrackedRequest) : TrackedRequest :=
  { Index := r.Index.toValidUTF8, Fields := r.Fields.toValidUTF8 }

end samlsp

namespace jwt

open time

/-- The signing methods the JWT library registers (`jwt.SigningMethod` values). -/
inductive SigningMethod where
  | HS256 | HS384 | HS512
  | RS256 | RS384 | RS512
  | PS256 | PS384 | PS512
  | ES256 | ES384 | ES512
  | EdDSA
  | none
deriving DecidableEq, Repr

/-- Go `SigningMethod.Alg`: the identifier written into the token header. -/
def SigningMethod.Alg : SigningMethod → String
  | .HS256 => "HS256" | .HS384 => "HS384" | .HS512 => "HS512"
  | .RS256 => "RS256" | .RS384 => "RS384" | .RS512 => "RS512"
  | .PS256 => "PS256" | .PS384 => "PS384" | .PS512 => "PS512"
  | .ES256 => "ES256" | .ES384 => "ES384" | .ES512 => "ES512"
  | .EdDSA => "EdDSA"
  | .none => "none"

/-- All registered signing methods. -/
def signingMethods : List SigningMethod :=
  [.HS256, .HS384, .HS512, .RS256, .RS384, .RS512, .PS256, .PS384, .PS512,
   .ES256, .ES384, .ES512, .EdDSA, .none]

/-- Go `jwt.GetSigningMethod`: look a method up by its identifier; nil when unknown. -/
def GetSigningMethod (alg : String) : Option SigningMethod :=
  signingMethods.find? (fun m => m.Alg == alg)

/-- Library variable `jwt.TimePrecision`, at its default of one second. -/
def TimePrecision : Duration := Second

/-- Go `jwt.NumericDate`: a wrapped `time.Time`. -/
structure NumericDate where
  Time : Time
deriving DecidableEq, Repr

/-- Go `jwt.NewNumericDate`: the time truncated to `TimePrecision`. -/
def NewNumericDate (t : Time) : NumericDate := ⟨Truncate t TimePrecision⟩

/-- Go `jwt.RegisteredClaims`; `ClaimStrings` is a list of strings, a nil date is `none`.
`Subject` holds the index of the request handed to `Encode` and is a Go string; `Issuer`,
`Audience` and `ID` hold configuration text or decoded JSON text. -/
structure RegisteredClaims where
  Issuer : String
  Subject : GoString
  Audience : List String
  ExpiresAt : Option NumericDate
  NotBefore : Option NumericDate
  IssuedAt : Option NumericDate
  ID : String
deriving DecidableEq, Repr

/-- Go `verifyAud`. The loop marks a match and concatenates all audience entries; an audience
claim that is empty, or made of empty strings only, counts as absent. -/
def verifyAud (aud : List String) (cmp : String) (required : Bool) : Bool :=
  if aud.length = 0 then !required
  else
    let result := aud.foldl (fun res a => if a = cmp then true else res) false
    let stringClaims := aud.foldl (fun acc a => acc ++ a) ""
    if stringClaims.length = 0 then !required
    else result

/-- Go `verifyExp`. -/
def verifyExp (exp : Option Time) (now : Time) (required : Bool) : Bool :=
  match exp with
  | Option.none => !required
  | some e => Before now e

/-- Go `verifyIat`. -/
def verifyIat (iat : Option Time) (now : Time) (required : Bool) : Bool :=
  match iat with
  | Option.none => !required
  | some i => After now i || Equal now i

/-- Go `verifyNbf`. -/
def verifyNbf (nbf : Option Time) (now : Time) (required : Bool) : Bool :=
  match nbf with
  | Option.none => !required
  | some n => After now n || Equal now n

/-- Go `verifyIss`. -/
def verifyIss (iss : String) (cmp : String) (required : Bool) : Bool :=
  if iss = "" then !required
  else decide (iss = cmp)

/-- Go `RegisteredClaims.VerifyAudience`. -/
def RegisteredClaims.VerifyAudience (c : RegisteredClaims) (cmp : String) (req : Bool) : Bool :=
  verifyAud c.Audience cmp req

/-- Go `RegisteredClaims.VerifyExpiresAt`. -/
def RegisteredClaims.VerifyExpiresAt (c : RegisteredClaims) (cmp : Time) (req : Bool) : Bool :=
  verifyExp (c.ExpiresAt.map (fun d => d.Time)) cmp req

/-- Go `RegisteredClaims.VerifyIssuedAt`. -/
def RegisteredClaims.VerifyIssuedAt (c : RegisteredClaims) (cmp : Time) (req : Bool) : Bool :=
  verifyIat (c.IssuedAt.map (fun d => d.Time)) cmp req

/-- Go `RegisteredClaims.VerifyNotBefore`. -/
def RegisteredClaims.VerifyNotBefore (c : RegisteredClaims) (cmp : Time) (req : Bool) : Bool :=
  verifyNbf (c.NotBefore.map (fun d => d.Time)) cmp req

/-- Go `RegisteredClaims.VerifyIssuer`. -/
def RegisteredClaims.VerifyIssuer (c : RegisteredClaims) (cmp : String) (req : Bool) : Bool :=
  verifyIss c.Issuer cmp req

/-- The `Inner` error of a `jwt.ValidationError`: one of the three errors of the time checks, or
the error of a failed `SigningMethod.Verify`. -/
inductive InnerError where
  | tokenExpiredBy (delta : Duration)
  | tokenUsedBeforeIssued
  | tokenNotValidYet
  | verification
deriving DecidableEq, Repr

/-- Go `jwt.ValidationError`: the wrapped error, the bit field of failed checks and a text. -/
structure ValidationError where
  Inner : Option InnerError
  Errors : Nat
  text : String
deriving DecidableEq, Repr

/-- Go `ValidationErrorMalformed`. -/
def ValidationErrorMalformed : Nat := 1 <<< 0
/-- Go `ValidationErrorUnverifiable`. -/
def ValidationErrorUnverifiable : Nat := 1 <<< 1
/-- Go `ValidationErrorSignatureInvalid`. -/
def ValidationErrorSignatureInvalid : Nat := 1 <<< 2
/-- Go `ValidationErrorAudience`. -/
def ValidationErrorAudience : Nat := 1 <<< 3
/-- Go `ValidationErrorExpired`. -/
def ValidationErrorExpired : Nat := 1 <<< 4
/-- Go `ValidationErrorIssuedAt`. -/
def ValidationErrorIssuedAt : Nat := 1 <<< 5
/-- Go `ValidationErrorIssuer`. -/
def ValidationErrorIssuer : Nat := 1 <<< 6
/-- Go `ValidationErrorNotValidYet`. -/
def ValidationErrorNotValidYet : Nat := 1 <<< 7

/-- Go `NewValidationError`. -/
def NewValidationError (errorText : String) (errorFlags : Nat) : ValidationError :=
  { Inner := Option.none, Errors := errorFlags, text := errorText }

/-- Go `ValidationError.valid`: no check failed. -/
def ValidationError.valid (e : ValidationError) : Bool := e.Errors == 0

/-- Go `RegisteredClaims.Valid`: the time checks of the parser, against the library clock
reading `now` (`jwt.TimeFunc()`); `none` stands for a nil error. -/
def RegisteredClaims.Valid (c : RegisteredClaims) (now : Time) : Option ValidationError :=
  let vErr : ValidationError := { Inner := Option.none, Errors := 0, text := "" }
  let vErr :=
    if !c.VerifyExpiresAt now false then
      let delta := Sub now ((c.ExpiresAt.map (fun d => d.Time)).getD 0)
      { vErr with Inner := some (.tokenExpiredBy delta),
                  Errors := vErr.Errors ||| ValidationErrorExpired }
    else vErr
  let vErr :=
    if !c.VerifyIssuedAt now false then
      { vErr with Inner := some .tokenUsedBeforeIssued,
                  Errors := vErr.Errors ||| ValidationErrorIssuedAt }
    else vErr
  let vErr :=
    if !c.VerifyNotBefore now false then
      { vErr with Inner := some .tokenNotValidYet,
                  Errors := vErr.Errors ||| ValidationErrorNotValidYet }
    else vErr
  if vErr.valid then Option.none else some vErr

end jwt

namespace samlsp

open time

/-- Go `JWTTrackedRequestClaims`: the registered claims, the embedded request and the
`saml-authn-request` flag. -/
structure JWTTrackedRequestClaims where
  RegisteredClaims : jwt.RegisteredClaims
  TrackedRequest : TrackedRequest
  SAMLAuthnRequest : Bool
deriving DecidableEq, Repr

/-- The claims segment of a token as a JSON object: every member may be absent. Dates are JSON
numbers, kept as whole seconds (the library truncates a decoded date to `TimePrecision`), and an
audience given as a single string is kept as a one-element list. -/
structure ClaimsJSON where
  iss : Option String
  sub : Option String
  aud : Option (List String)
  exp : Option Int
  nbf : Option Int
  iat : Option Int
  jti : Option String
  index : Option String
  fields : Option String
  samlAuthnRequest : Option Bool
deriving DecidableEq, Repr

/-- A string member tagged `omitempty`: left out when empty. -/
def omitEmpty (s : String) : Option String := if s = "" then none else some s

/-- A Go string member tagged `omitempty`: left out when it has no bytes, else written coerced to
valid UTF-8. -/
def omitEmptyGo (g : GoString) : Option String := if g.bytes = [] then none else some g.toText

/-- The `MarshalJSON` of a `NumericDate` at second precision: its Unix seconds. -/
def marshalDate (d : jwt.NumericDate) : Int := Unix (Truncate d.Time jwt.TimePrecision)

/-- The `UnmarshalJSON` of a `NumericDate` from a whole number of seconds. -/
def unmarshalDate (sec : Int) : jwt.NumericDate := jwt.NewNumericDate (ofUnix sec)

/-- Go `json.Marshal` of a `JWTTrackedRequestClaims`: the members of the embedded structs are
flattened into one object; `iss`, `sub`, `aud`, `exp`, `nbf`, `iat` and `jti` are `omitempty`;
the Go strings are written coerced to valid UTF-8. -/
def marshalClaims (c : JWTTrackedRequestClaims) : ClaimsJSON :=
  { iss := omitEmpty c.RegisteredClaims.Issuer
    sub := omitEmptyGo c.RegisteredClaims.Subject
    aud := if c.RegisteredClaims.Audience.length = 0 then none
           else some c.RegisteredClaims.Audience
    exp := c.RegisteredClaims.ExpiresAt.map marshalDate
    nbf := c.RegisteredClaims.NotBefore.map marshalDate
    iat := c.RegisteredClaims.IssuedAt.map marshalDate
    jti := omitEmpty c.RegisteredClaims.ID
    index := some c.TrackedRequest.Index.toText
    fields := some c.TrackedRequest.Fields.toText
    samlAuthnRequest := some c.SAMLAuthnRequest }

/-- Go `json.Unmarshal` into a zero `JWTTrackedRequestClaims`: an absent member leaves the zero
value of its field. -/
def unmarshalClaims (j : ClaimsJSON) : JWTTrackedRequestClaims :=
  { RegisteredClaims :=
      { Issuer := j.iss.getD ""
        Subject := GoString.ofText (j.sub.getD "")
        Audience := j.aud.getD []
        ExpiresAt := j.exp.map unmarshalDate
        NotBefore := j.nbf.map unmarshalDate
        IssuedAt := j.iat.map unmarshalDate
        ID := j.jti.getD "" }
    TrackedRequest := { Index := GoString.ofText (j.index.getD "")
                        Fields := GoString.ofText (j.fields.getD "") }
    SAMLAuthnRequest := j.samlAuthnRequest.getD false }

end samlsp

namespace jwt

open time

/-- The header segment of a token as a JSON object. -/
structure Header where
  typ : Option String
  alg : Option String
deriving DecidableEq, Repr

/-- The decoded signature segment. -/
abbrev Signature := List Nat

/-- The signing string of a token: its header and claims segments. -/
structure SigningString where
  header : Header
  claims : samlsp.ClaimsJSON
deriving DecidableEq, Repr

/-- A signed token string, as its three segments. -/
structure SignedString where
  header : Header
  claims : samlsp.ClaimsJSON
  signature : Signature
deriving DecidableEq, Repr

/-- The signing string a signed token carries (its first two segments). -/
def SignedString.signingString (t : SignedString) : SigningString :=
  { header := t.header, claims := t.claims }

/-- The signature primitives behind `SigningMethod.Sign` and `SigningMethod.Verify`, for the key
types the codec passes: an RSA private key to sign, its public key to verify. `Sign` gives `none`
when the method reports an error (wrong key type for the method, unusable key). -/
structure Crypto where
  Sign : SigningMethod → SigningString → rsa.PrivateKey → Option Signature
  Verify : SigningMethod → SigningString → Signature → rsa.PublicKey → Bool

/-- Go `jwt.Token` after `NewWithClaims`: method, header and claims. -/
structure Token where
  Method : SigningMethod
  Header : Header
  Claims : samlsp.JWTTrackedRequestClaims
deriving DecidableEq, Repr

/-- Go `jwt.NewWithClaims`. -/
def NewWithClaims (method : SigningMethod) (claims : samlsp.JWTTrackedRequestClaims) : Token :=
  { Method := method
    Header := { typ := some "JWT", alg := some method.Alg }
    Claims := claims }

/-- Go `Token.SigningString`. -/
def Token.SigningString (t : Token) : SigningString :=
  { header := t.Header, claims := samlsp.marshalClaims t.Claims }

/-- The error of a failed `SigningMethod.Sign`. -/
inductive SignError where
  | signingFailed
deriving DecidableEq, Repr

/-- Go `Token.SignedString`. -/
def Token.SignedString (C : Crypto) (t : Token) (key : rsa.PrivateKey) :
    Except SignError SignedString :=
  let sstr := t.SigningString
  match C.Sign t.Method sstr key with
  | Option.none => .error .signingFailed
  | some sig => .ok { header := sstr.header, claims := sstr.claims, signature := sig }

/-- Go `jwt.Parser`; a nil `ValidMethods` is `none`. -/
structure Parser where
  ValidMethods : Option (List String)
  SkipClaimsValidation : Bool := false
deriving DecidableEq, Repr

/-- Go `Parser.ParseUnverified` on a token with three well-formed segments: unmarshal the claims
and look up the method named by the header. -/
def Parser.ParseUnverified (signed : SignedString) : Except ValidationError Token :=
  let claims := samlsp.unmarshalClaims signed.claims
  match signed.header.alg with
  | some method =>
    match GetSigningMethod method with
    | Option.none =>
      .error (NewValidationError "signing method (alg) is unavailable." ValidationErrorUnverifiable)
    | some m => .ok { Method := m, Header := signed.header, Claims := claims }
  | Option.none =>
    .error (NewValidationError "signing method (alg) is unspecified." ValidationErrorUnverifiable)

/-- Go `Parser.ParseWithClaims`, with the library clock reading `now` and a key function that
returns `key` without error. The result is the claims the parser filled in. -/
def Parser.ParseWithClaims (C : Crypto) (p : Parser) (now : Time) (signed : SignedString)
    (key : rsa.PublicKey) : Except ValidationError samlsp.JWTTrackedRequestClaims :=
  match Parser.ParseUnverified signed with
  | .error err => .error err
  | .ok token =>
    let alg := token.Method.Alg
    let signingMethodValid :=
      match p.ValidMethods with
      | Option.none => true
      | some ms => ms.any (fun m => m == alg)
    if !signingMethodValid then
      .error (NewValidationError ("signing method " ++ alg ++ " is invalid")
        ValidationErrorSignatureInvalid)
    else
      let vErr : ValidationError := { Inner := Option.none, Errors := 0, text := "" }
      let vErr :=
        if !p.SkipClaimsValidation then
          match token.Claims.RegisteredClaims.Valid now with
          | some e => e
          | Option.none => vErr
        else vErr
      let vErr :=
        if !C.Verify token.Method signed.signingString signed.signature key then
          { vErr with Inner := some .verification,
                      Errors := vErr.Errors ||| ValidationErrorSignatureInvalid }
        else vErr
      if vErr.valid then .ok token.Claims else .error vErr

end jwt

namespace samlsp

open time

/-- Go `JWTTrackedRequestCodec`. -/
structure JWTTrackedRequestCodec where
  SigningMethod : jwt.SigningMethod
  Audience : String
  Issuer : String
  MaxAge : Duration
  Key : rsa.PrivateKey
deriving DecidableEq, Repr

/-- The claims value built in the body of `Encode`, for the clock reading `now`
(`saml.TimeNow()`). -/
def Encode.claims (s : JWTTrackedRequestCodec) (now : Time) (value : TrackedRequest) :
    JWTTrackedRequestClaims :=
  { RegisteredClaims :=
      { Audience := [s.Audience]
        ExpiresAt := some (jwt.NewNumericDate (Add now s.MaxAge))
        IssuedAt := some (jwt.NewNumericDate now)
        Issuer := s.Issuer
        NotBefore := some (jwt.NewNumericDate now)
        Subject := value.Index
        ID := "" }
    TrackedRequest := value
    SAMLAuthnRequest := true }

/-- Go `JWTTrackedRequestCodec.Encode`, with `now` the reading of `saml.TimeNow()`. -/
def JWTTrackedRequestCodec.Encode (C : jwt.Crypto) (s : JWTTrackedRequestCodec) (now : Time)
    (value : TrackedRequest) : Except jwt.SignError jwt.SignedString :=
  let claims := Encode.claims s now value
  let token := jwt.NewWithClaims s.SigningMethod claims
  token.SignedString C s.Key

/-- The errors of `Decode`: the parser error, or one of the three errors `Decode` makes. -/
inductive DecodeError where
  | parse (err : jwt.ValidationError)
  | expectedAudience (want : String) (got : List String)
  | expectedIssuer (want : String) (got : String)
  | expectedSAMLAuthnRequest
deriving DecidableEq, Repr

/-- The parser built in the body of `Decode`. -/
def Decode.parser (s : JWTTrackedRequestCodec) : jwt.Parser :=
  { ValidMethods := some [s.SigningMethod.Alg] }

/-- Go `JWTTrackedRequestCodec.Decode`, with `now` the reading of the JWT library clock
(`jwt.TimeFunc()`) during the parse. -/
def JWTTrackedRequestCodec.Decode (C : jwt.Crypto) (s : JWTTrackedRequestCodec) (now : Time)
    (signed : jwt.SignedString) : Except DecodeError TrackedRequest :=
  let parser := Decode.parser s
  match parser.ParseWithClaims C now signed s.Key.Public with
  | .error err => .error (.parse err)
  | .ok claims =>
    if !claims.RegisteredClaims.VerifyAudience s.Audience true then
      .error (.expectedAudience s.Audience claims.RegisteredClaims.Audience)
    else if !claims.RegisteredClaims.VerifyIssuer s.Issuer true then
      .error (.expectedIssuer s.Issuer claims.RegisteredClaims.Issuer)
    else if !claims.SAMLAuthnRequest then
      .error .expectedSAMLAuthnRequest
    else
      .ok { claims.TrackedRequest with Index := claims.RegisteredClaims.Subject }

/-- A toy instance of the signature primitives: the signature of a signing string under a key
lists the key modulus and the lengths of the method name and of the subject. -/
def toyCrypto : jwt.Crypto where
  Sign := fun m sstr key =>
    some [key.PublicKey.N, m.Alg.length, (sstr.claims.sub.getD "").length]
  Verify := fun m sstr sig key =>
    sig == [key.N, m.Alg.length, (sstr.claims.sub.getD "").length]

/-- A sample codec configuration. -/
def sampleCodec : JWTTrackedRequestCodec :=
  { SigningMethod := .RS256
    Audience := "https://sp.example.com/"
    Issuer := "https://sp.example.com/"
    MaxAge := 90 * Second
    Key := { PublicKey := { N := 3233, E := 17 }, D := 413 } }

/-- A sample tracked request. -/
def sampleRequest : TrackedRequest :=
  { Index := GoString.ofText "id-1", Fields := GoString.ofText "/frob" }

end samlsp

namespace http

/-- Go `http.StatusOK`. -/
def StatusOK : Nat := 200
/-- Go `http.StatusNoContent`. -/
def StatusNoContent : Nat := 204
/-- Go `http.StatusBadRequest`. -/
def StatusBadRequest : Nat := 400
/-- Go `http.StatusInternalServerError`. -/
def StatusInternalServerError : Nat := 500

/-- Go `http.StatusText`, for the codes the handlers use. -/
def StatusText (code : Nat) : String :=
  if code = 200 then "OK"
  else if code = 204 then "No Content"
  else if code = 400 then "Bad Request"
  else if code = 500 then "Internal Server Error"
  else ""

end http

namespace samlidp

/-- Go `Shortcut`; a nil `RelayState` pointer is `none`. -/
structure Shortcut where
  Name : String
  ServiceProviderID : String
  RelayState : Option String
  URISuffixAsRelayState : Bool
deriving DecidableEq, Repr

/-- Go `Shortcut{}`: the zero value. -/
def Shortcut.zero : Shortcut :=
  { Name := "", ServiceProviderID := "", RelayState := none, URISuffixAsRelayState := false }

/-- A shortcut as a JSON object, with the member names of the struct tags; every member may be
absent. -/
structure ShortcutJSON where
  name : Option String
  service_provider : Option String
  relay_state : Option String
  url_suffix_as_relay_state : Option Bool
deriving DecidableEq, Repr

/-- Go `json.Marshal` of a `Shortcut`: `relay_state` and `url_suffix_as_relay_state` are
`omitempty` (left out for a nil pointer and for false). -/
def marshalShortcut (s : Shortcut) : ShortcutJSON :=
  { name := some s.Name
    service_provider := some s.ServiceProviderID
    relay_state := s.RelayState
    url_suffix_as_relay_state := if s.URISuffixAsRelayState then some true else none }

/-- Go `json.Unmarshal` of an object into a shortcut value: a member that is present overwrites
its field, an absent one leaves it. -/
def unmarshalShortcut (j : ShortcutJSON) (into : Shortcut) : Shortcut :=
  { Name := j.name.getD into.Name
    ServiceProviderID := j.service_provider.getD into.ServiceProviderID
    RelayState := match j.relay_state with
      | some v => some v
      | none => into.RelayState
    URISuffixAsRelayState := j.url_suffix_as_relay_state.getD into.URISuffixAsRelayState }

/-- The error of a store operation. -/
inductive StoreError where
  | notFound
deriving DecidableEq, Repr

/-- Modelled from the spec: the key-value store behind `Server.Store` is declared outside the
two source files. The spec gives it `Get(key) -> value | not-found`, `Put(key, value)` and
`Delete(key) -> error-if-absent`, over JSON-marshalled values; here it is an association list
from keys to JSON objects. -/
abbrev Store := List (String × ShortcutJSON)

/-- Modelled from the spec: `Get(key) -> value | not-found`, unmarshalling the stored JSON
into `into`. -/
def Store.Get (st : Store) (key : String) (into : Shortcut) : Except StoreError Shortcut :=
  match st.lookup key with
  | some j => .ok (unmarshalShortcut j into)
  | none => .error .notFound

/-- Modelled from the spec: `Put(key, value)` stores the marshalled value, replacing any prior
value of the key. -/
def Store.Put (st : Store) (key : String) (value : Shortcut) : Except StoreError Store :=
  .ok ((key, marshalShortcut value) :: st.filter (fun kv => kv.1 != key))

/-- Modelled from the spec: `Delete(key) -> error-if-absent`. -/
def Store.Delete (st : Store) (key : String) : Except StoreError Store :=
  match st.lookup key with
  | some _ => .ok (st.filter (fun kv => kv.1 != key))
  | none => .error .notFound

/-- Go `web.C`: the URL parameters bound by the router. -/
structure C where
  URLParams : List (String × String)
deriving DecidableEq, Repr

/-- Go map indexing `c.URLParams[name]`: the empty string for an absent name. -/
def C.param (c : C) (name : String) : String := (c.URLParams.lookup name).getD ""

/-- The body written to the response. -/
inductive ResponseBody where
  | empty
  | text (s : String)
  | json (j : ShortcutJSON)
deriving DecidableEq, Repr

/-- What a handler wrote to its `http.ResponseWriter`. -/
structure Response where
  Code : Nat
  Body : ResponseBody
deriving DecidableEq, Repr

/-- Go `http.Error`: the status code and the message followed by a newline. -/
def httpError (error : String) (code : Nat) : Response :=
  { Code := code, Body := .text (error ++ "\n") }

/-- The body of a PUT request as `json.Decoder.Decode` sees it: a JSON object, or input the
decoder rejects. -/
inductive RequestBody where
  | object (j : ShortcutJSON)
  | malformed
deriving DecidableEq, Repr

/-- Go `Server.HandleGetShortcut`; writing the encoded shortcut does not fail here. -/
def HandleGetShortcut (store : Store) (c : C) : Response :=
  let shortcut := Shortcut.zero
  match store.Get ("/shortcuts/" ++ c.param "id") shortcut with
  | .error _ =>
    httpError (http.StatusText http.StatusInternalServerError) http.StatusInternalServerError
  | .ok shortcut => { Code := http.StatusOK, Body := .json (marshalShortcut shortcut) }

/-- Go `Server.HandlePutShortcut`: the store after the request and the response. -/
def HandlePutShortcut (store : Store) (c : C) (body : RequestBody) : Store × Response :=
  let shortcut := Shortcut.zero
  match body with
  | .malformed => (store, httpError (http.StatusText http.StatusBadRequest) http.StatusBadRequest)
  | .object j =>
    let shortcut := unmarshalShortcut j shortcut
    let shortcut := { shortcut with Name := c.param "id" }
    match store.Put ("/shortcuts/" ++ c.param "id") shortcut with
    | .error _ =>
      (store,
        httpError (http.StatusText http.StatusInternalServerError) http.StatusInternalServerError)
    | .ok store => (store, { Code := http.StatusNoContent, Body := .empty })

/-- Go `Server.HandleDeleteShortcut`: the store after the request and the response. -/
def HandleDeleteShortcut (store : Store) (c : C) : Store × Response :=
  match store.Delete ("/shortcuts/" ++ c.param "id") with
  | .error _ =>
    (store,
      httpError (http.StatusText http.StatusInternalServerError) http.StatusInternalServerError)
  | .ok store => (store, { Code := http.StatusNoContent, Body := .empty })

/-- What `HandleIDPInitiated` does: answer with an error itself, or hand the request to
`IDP.ServeIDPInitiated` with a service provider id and a relay state. -/
inductive IDPInitiated where
  | response (r : Response)
  | ServeIDPInitiated (serviceProviderID : String) (relayState : String)
deriving DecidableEq, Repr

/-- The relay state `HandleIDPInitiated` computes in its switch; the suffix is the value the
router bound to `*`, passed on unchanged. -/
def HandleIDPInitiated.relayState (shortcut : Shortcut) (c : C) : String :=
  let relayState := ""
  match shortcut.RelayState with
  | some v => v
  | none => if shortcut.URISuffixAsRelayState then c.param "*" else relayState

/-- Go `Server.HandleIDPInitiated`; the log line and the read lock are left out. -/
def HandleIDPInitiated (store : Store) (c : C) : IDPInitiated :=
  let shortcutName := c.param "shortcut"
  let shortcut := Shortcut.zero
  match store.Get ("/shortcuts/" ++ shortcutName) shortcut with
  | .error _ =>
    .response
      (httpError (http.StatusText http.StatusInternalServerError) http.StatusInternalServerError)
  | .ok shortcut =>
    let relayState := HandleIDPInitiated.relayState shortcut c
    .ServeIDPInitiated shortcut.ServiceProviderID relayState

end samlidp

namespace samlidp

/-- A store holding one shortcut with a fixed relay state and the suffix flag set. -/
def sampleStore : Store :=
  [("/shortcuts/app",
    { name := some "app", service_provider := some "sp1", relay_state := some "fixed",
      url_suffix_as_relay_state := some true })]

/-- The shortcut held by `sampleStore`. -/
def sampleShortcut : Shortcut :=
  { Name := "app", ServiceProviderID := "sp1", RelayState := some "fixed",
    URISuffixAsRelayState := true }

/-- URL parameters of a request for `/login/app/other`. -/
def sampleLogin : C := { URLParams := [("shortcut", "app"), ("*", "other")] }

/-- URL parameters of a request for `/shortcuts/foo`. -/
def sampleFoo : C := { URLParams := [("id", "foo")] }

/-- A request body naming the shortcut `bar`. -/
def sampleBody : ShortcutJSON :=
  { name := some "bar", service_provider := some "sp1", relay_state := none,
    url_suffix_as_relay_state := none }

/-- A store holding a record under `/shortcuts/foo`. -/
def sampleFooStore : Store :=
  [("/shortcuts/foo",
    { name := some "foo", service_provider := some "sp1", relay_state := none,
      url_suffix_as_relay_state := none })]

end samlidp

namespace samlsp

open time

/-- A clock reading with a fraction of a second: 2015-12-01 01:57:09.123456789 UTC. -/
def sampleNow : Time := 1448935029123456789

/-- The header `Encode` writes under `sampleCodec`. -/
def sampleHeader : jwt.Header := { typ := some "JWT", alg := some "RS256" }

/-- The claims segment `Encode` writes for `sampleRequest` at `sampleNow` under
`sampleCodec`. -/
def sampleClaimsJSON : ClaimsJSON :=
  { iss := some "https://sp.example.com/"
    sub := some "id-1"
    aud := some ["https://sp.example.com/"]
    exp := some 1448935119
    nbf := some 1448935029
    iat := some 1448935029
    jti := none
    index := some "id-1"
    fields := some "/frob"
    samlAuthnRequest := some true }

/-- The token `Encode` returns for `sampleRequest` at `sampleNow` under `sampleCodec` and
`toyCrypto`. -/
def sampleToken : jwt.SignedString :=
  { header := sampleHeader, claims := sampleClaimsJSON, signature := [3233, 5, 4] }

/-- A token that verifies under `sampleCodec` and `toyCrypto`, whose payload says index "X" and
whose subject claim is "Y". -/
def forgedIndexToken : jwt.SignedString :=
  { header := sampleHeader
    claims := { sampleClaimsJSON with sub := some "Y", index := some "X" }
    signature := [3233, 5, 1] }

/-- The sample token without its `saml-authn-request` member. -/
def noFlagToken : jwt.SignedString :=
  { sampleToken with claims := { sampleClaimsJSON with samlAuthnRequest := none } }

/-- The sample token with another audience. -/
def otherAudienceToken : jwt.SignedString :=
  { sampleToken with claims := { sampleClaimsJSON with aud := some ["https://other.example.com/"] } }

/-- The sample token with a header that names the unsecured algorithm. -/
def noneAlgToken : jwt.SignedString :=
  { sampleToken with header := { typ := some "JWT", alg := some "none" } }

/-- A tracked request whose index ends in the byte 0xFF, which is not valid UTF-8. -/
def invalidIndexRequest : TrackedRequest :=
  { Index := ⟨[0x69, 0x64, 0x2d, 0xff]⟩, Fields := GoString.ofText "/frob" }

/-- The token `Encode` returns for `invalidIndexRequest` at `sampleNow` under `sampleCodec` and
`toyCrypto`: the byte 0xFF is written as U+FFFD. -/
def invalidIndexToken : jwt.SignedString :=
  { sampleToken with
    claims := { sampleClaimsJSON with sub := some "id-\uFFFD", index := some "id-\uFFFD" } }

/-- The sample codec with a zero maximum age. -/
def zeroAgeCodec : JWTTrackedRequestCodec := { sampleCodec with MaxAge := 0 }

/-- The token `Encode` returns for `sampleRequest` at `sampleNow` under `zeroAgeCodec` and
`toyCrypto`. -/
def zeroAgeToken : jwt.SignedString :=
  { sampleToken with claims := { sampleClaimsJSON with exp := some 1448935029 } }

/-- A codec configuration that `Encode` and `Decode` can work with: the audience and the issuer
are non-empty text, the maximum age is at least one second, and the configured method signs every
signing string with the key and verifies that signature with the public key of the key. -/
def ValidCodec (C : jwt.Crypto) (s : JWTTrackedRequestCodec) : Prop :=
  s.Audience ≠ "" ∧ s.Issuer ≠ "" ∧ Second ≤ s.MaxAge ∧
  ∀ sstr : jwt.SigningString, ∃ sig, C.Sign s.SigningMethod sstr s.Key = some sig ∧
    C.Verify s.SigningMethod sstr sig s.Key.Public = true

end samlsp

/-! Theorems about the shortcut handlers. -/

namespace samlidp

theorem unmarshal_marshalShortcut (s : Shortcut) :
    unmarshalShortcut (marshalShortcut s) Shortcut.zero = s := by
  rcases s with ⟨n, sp, rs, b⟩
  cases rs <;> cases b <;> rfl

theorem Store.lookup_put (st : Store) (key : String) (v : ShortcutJSON) :
    List.lookup key ((key, v) :: st.filter (fun kv => kv.1 != key)) = some v := by
  simp [List.lookup]

/-- C8: when the store holds a shortcut under the requested name, HandleIDPInitiated hands the
request to the SAML engine with the service provider id of the shortcut and with the relay state
of the shortcut when it has one, otherwise the path suffix when URISuffixAsRelayState is true,
otherwise the empty string. -/
theorem HandleIDPInitiated_relay_state_precedence (store : Store) (c : C) (sc : Shortcut)
    (h : store.Get ("/shortcuts/" ++ c.param "shortcut") Shortcut.zero = .ok sc) :
    HandleIDPInitiated store c =
      .ServeIDPInitiated sc.ServiceProviderID
        (match sc.RelayState with
         | some v => v
         | none => if sc.URISuffixAsRelayState = true then c.param "*" else "") := by
  unfold HandleIDPInitiated
  simp only [h, HandleIDPInitiated.relayState]

/-- Witness for C8: relay state "fixed", suffix flag true and suffix "other" resolve to
"fixed". -/
theorem HandleIDPInitiated_relay_state_precedence_witness :
    sampleStore.Get ("/shortcuts/" ++ sampleLogin.param "shortcut") Shortcut.zero
        = .ok sampleShortcut ∧
      HandleIDPInitiated sampleStore sampleLogin = .ServeIDPInitiated "sp1" "fixed" :=
  ⟨by decide, HandleIDPInitiated_relay_state_precedence sampleStore sampleLogin sampleShortcut
    (by decide)⟩

/-- C9: for every path name (the id parameter) and every JSON object body, HandlePutShortcut
answers 204 and leaves under "/shortcuts/" followed by the name the decoded body with its Name
replaced by the path name; HandleGetShortcut for that name then answers 200 with that shortcut,
whose name member is the path name. -/
theorem HandlePutShortcut_name_authority (store : Store) (c : C) (b : ShortcutJSON) :
    (HandlePutShortcut store c (.object b)).2 = { Code := 204, Body := .empty } ∧
    (HandlePutShortcut store c (.object b)).1.Get ("/shortcuts/" ++ c.param "id") Shortcut.zero
      = .ok { unmarshalShortcut b Shortcut.zero with Name := c.param "id" } ∧
    HandleGetShortcut (HandlePutShortcut store c (.object b)).1 c
      = { Code := 200,
          Body := .json (marshalShortcut
            { unmarshalShortcut b Shortcut.zero with Name := c.param "id" }) } ∧
    (marshalShortcut { unmarshalShortcut b Shortcut.zero with Name := c.param "id" }).name
      = some (c.param "id") := by
  have hget : (HandlePutShortcut store c (.object b)).1.Get ("/shortcuts/" ++ c.param "id")
      Shortcut.zero = .ok { unmarshalShortcut b Shortcut.zero with Name := c.param "id" } := by
    simp only [HandlePutShortcut, Store.Put, Store.Get, Store.lookup_put,
      unmarshal_marshalShortcut]
  refine ⟨rfl, hget, ?_, rfl⟩
  simp only [HandleGetShortcut, hget]
  rfl

/-- C9 at sample inputs: a PUT for the name "foo" with a body whose name member is "bar" reads
back with the name "foo". -/
theorem HandlePutShortcut_name_authority_witness :
    sampleBody.name = some "bar" ∧
    HandleGetShortcut (HandlePutShortcut [] sampleFoo (.object sampleBody)).1 sampleFoo
      = { Code := 200,
          Body := .json { name := some "foo", service_provider := some "sp1",
                          relay_state := none, url_suffix_as_relay_state := none } } :=
  ⟨rfl, (HandlePutShortcut_name_authority [] sampleFoo sampleBody).2.2.1⟩

/-- C10, as stated, fails: with nothing stored under "foo" HandleDeleteShortcut answers 500,
with a record stored under "foo" it answers 204. -/
theorem HandleDeleteShortcut_absent_differs :
    (HandleDeleteShortcut [] sampleFoo).2 ≠ (HandleDeleteShortcut sampleFooStore sampleFoo).2 := by
  decide

/-- C10, amended: HandleDeleteShortcut answers 204 No Content and removes the record when one is
stored under the name, and answers 500 Internal Server Error, leaving the store as it is, when
none is. -/
theorem HandleDeleteShortcut_response (store : Store) (c : C) :
    HandleDeleteShortcut store c =
      if (store.lookup ("/shortcuts/" ++ c.param "id")).isSome = true then
        (store.filter (fun kv => kv.1 != "/shortcuts/" ++ c.param "id"),
          { Code := 204, Body := .empty })
      else
        (store, { Code := 500, Body := .text "Internal Server Error\n" }) := by
  unfold HandleDeleteShortcut Store.Delete
  cases h : List.lookup ("/shortcuts/" ++ c.param "id") store <;> simp <;> rfl

end samlidp

/-! Lemmas about Go strings and their JSON encoding. -/

namespace utf8

theorem char_range (c : Char) :
    c.toNat < 0xD800 ∨ (0xDFFF < c.toNat ∧ c.toNat < 0x110000) := by
  have := c.valid
  simp only [UInt32.isValidChar, Nat.isValidChar] at this
  exact this

/-- The walk of the JSON encoder reads back a rune from its encoding. -/
theorem coerce_EncodeRune (c : Char) (rest : List Nat) :
    coerce 0 (EncodeRune c ++ rest) = c :: coerce 0 rest := by
  have hr := char_range c
  have hc : ∀ n, n = c.toNat → Char.ofNat n = c := by
    intro n hn; rw [hn]; exact Char.ofNat_toNat c
  unfold EncodeRune
  simp only []
  split
  · next h1 =>
    simp [coerce, DecodeRune, h1, hc]
  · split
    · next h1 h2 =>
      have a1 : ¬ (0xC0 + c.toNat / 64 < 0x80) := by omega
      have a2 : 0xC2 ≤ 0xC0 + c.toNat / 64 ∧ 0xC0 + c.toNat / 64 ≤ 0xDF := by omega
      have a3 : isCont (0x80 + c.toNat % 64) = true := by simp [isCont]; omega
      simp [coerce, DecodeRune, a1, a2, a3]
      exact hc _ (by omega)
    · split
      · next h1 h2 h3 =>
        have a1 : ¬ (0xE0 + c.toNat / 4096 < 0x80) := by omega
        have a2 : ¬ (0xC2 ≤ 0xE0 + c.toNat / 4096 ∧ 0xE0 + c.toNat / 4096 ≤ 0xDF) := by omega
        have a3 : 0xE0 ≤ 0xE0 + c.toNat / 4096 ∧ 0xE0 + c.toNat / 4096 ≤ 0xEF := by omega
        have a4 : accept3 (0xE0 + c.toNat / 4096) (0x80 + c.toNat / 64 % 64) = true := by
          simp only [accept3, decide_eq_true_eq]; omega
        have a5 : isCont (0x80 + c.toNat % 64) = true := by simp [isCont]; omega
        simp [coerce, DecodeRune, a1, a2, a3, a4, a5]
        exact hc _ (by omega)
      · next h1 h2 h3 =>
        have a1 : ¬ (0xF0 + c.toNat / 262144 < 0x80) := by omega
        have a2 : ¬ (0xC2 ≤ 0xF0 + c.toNat / 262144 ∧ 0xF0 + c.toNat / 262144 ≤ 0xDF) := by
          omega
        have a3 : ¬ (0xE0 ≤ 0xF0 + c.toNat / 262144 ∧ 0xF0 + c.toNat / 262144 ≤ 0xEF) := by
          omega
        have a3b : 0xF0 ≤ 0xF0 + c.toNat / 262144 ∧ 0xF0 + c.toNat / 262144 ≤ 0xF4 := by omega
        have a4 : accept4 (0xF0 + c.toNat / 262144) (0x80 + c.toNat / 4096 % 64) = true := by
          simp only [accept4, decide_eq_true_eq]; omega
        have a5 : isCont (0x80 + c.toNat / 64 % 64) = true := by simp [isCont]; omega
        have a6 : isCont (0x80 + c.toNat % 64) = true := by simp [isCont]; omega
        simp [coerce, DecodeRune, a1, a2, a3, a3b, a4, a5, a6]
        exact hc _ (by omega)

theorem EncodeRune_lt (c : Char) : ∀ b ∈ EncodeRune c, b < 256 := by
  have hr := char_range c
  unfold EncodeRune
  simp only []
  split
  · simp; omega
  · split
    · simp; omega
    · split
      · simp; omega
      · simp; omega

theorem coerce_encode (cs : List Char) : coerce 0 (cs.flatMap EncodeRune) = cs := by
  induction cs with
  | nil => rfl
  | cons c cs ih => rw [List.flatMap_cons, coerce_EncodeRune, ih]

end utf8

/-- The JSON encoder writes the UTF-8 encoding of a text back as that text. -/
theorem GoString.toText_ofText (s : String) : (GoString.ofText s).toText = s := by
  unfold GoString.toText GoString.ofText
  have h : List.map UInt8.toNat (List.map UInt8.ofNat (s.data.flatMap utf8.EncodeRune))
      = s.data.flatMap utf8.EncodeRune := by
    rw [List.map_map]
    conv_rhs => rw [← List.map_id (s.data.flatMap utf8.EncodeRune)]
    apply List.map_congr_left
    intro b hb
    obtain ⟨c, -, hc⟩ := List.mem_flatMap.1 hb
    have := utf8.EncodeRune_lt c b hc
    show b % 256 = b
    omega
  simp only [h, utf8.coerce_encode]

/-- A Go string that is valid UTF-8 comes back unchanged from the JSON encoder and decoder. -/
theorem GoString.toValidUTF8_of_valid (g : GoString) (h : g.ValidUTF8) : g.toValidUTF8 = g := by
  obtain ⟨s, rfl⟩ := h
  unfold GoString.toValidUTF8
  rw [GoString.toText_ofText]

theorem GoString.ofText_omitEmptyGo (g : GoString) :
    GoString.ofText ((samlsp.omitEmptyGo g).getD "") = g.toValidUTF8 := by
  unfold samlsp.omitEmptyGo GoString.toValidUTF8
  split
  · next h =>
    have : g = ⟨[]⟩ := by cases g; simp_all
    subst this
    rfl
  · rfl

/-! Lemmas about the checks of the JWT library. -/

namespace jwt

open time

theorem GetSigningMethod_Alg (m : SigningMethod) : GetSigningMethod m.Alg = some m := by
  cases m <;> decide

theorem Alg_of_GetSigningMethod {a : String} {m : SigningMethod}
    (h : GetSigningMethod a = some m) : m.Alg = a := by
  unfold GetSigningMethod at h
  have := List.find?_some h
  simpa using this

theorem Truncate_Second (t : Time) : Truncate t TimePrecision = t - t % 1000000000 := by
  simp [Truncate, TimePrecision, Second]

theorem verifyAud_foldl_false (aud : List String) (cmp : String) (h : cmp ∉ aud) :
    aud.foldl (fun res a => if a = cmp then true else res) false = false := by
  induction aud with
  | nil => rfl
  | cons a as ih =>
    simp only [List.mem_cons, not_or] at h
    have hne : ¬ a = cmp := fun e => h.1 e.symm
    simp only [List.foldl_cons, hne, if_false]
    exact ih h.2

theorem verifyAud_of_not_mem (aud : List String) (cmp : String) (h : cmp ∉ aud) :
    verifyAud aud cmp true = false := by
  unfold verifyAud
  split
  · rfl
  · simp only [verifyAud_foldl_false aud cmp h]
    split <;> rfl

theorem verifyAud_singleton (a : String) (h : a ≠ "") : verifyAud [a] a true = true := by
  have hl : a.length ≠ 0 := by
    intro h0
    apply h
    exact String.ext (List.eq_nil_of_length_eq_zero h0)
  simp [verifyAud, hl]

theorem verifyIss_of_ne (iss : Option String) (cmp : String) (h : iss ≠ some cmp) :
    verifyIss (iss.getD "") cmp true = false := by
  unfold verifyIss
  cases iss with
  | none => simp
  | some x =>
    have hx : x ≠ cmp := fun e => h (by rw [e])
    by_cases hx0 : x = "" <;> simp [hx0, hx]

theorem verifyIss_self (a : String) (h : a ≠ "") : verifyIss a a true = true := by
  simp [verifyIss, h]

/-- The bit field of a failed `Valid`: one bit per failed time check. -/
theorem Valid_cases (c : RegisteredClaims) (now : Time) :
    (c.Valid now = Option.none ∧ c.VerifyExpiresAt now false = true ∧
        c.VerifyIssuedAt now false = true ∧ c.VerifyNotBefore now false = true) ∨
    (∃ e, c.Valid now = some e ∧
      ((c.VerifyExpiresAt now false = true ∧ (e.Errors = 32 ∨ e.Errors = 128 ∨ e.Errors = 160)) ∨
       (c.VerifyExpiresAt now false = false ∧
          (e.Errors = 16 ∨ e.Errors = 48 ∨ e.Errors = 144 ∨ e.Errors = 176)))) := by
  unfold RegisteredClaims.Valid
  cases hx : c.VerifyExpiresAt now false <;> cases hy : c.VerifyIssuedAt now false <;>
    cases hz : c.VerifyNotBefore now false <;>
    simp [ValidationError.valid, ValidationErrorExpired, ValidationErrorIssuedAt,
      ValidationErrorNotValidYet]

end jwt

/-! Theorems about the tracked-request codec. -/

namespace samlsp

open time jwt

/-- The parse inside `Decode` rejects a token whose header names another algorithm, before any
claim or signature check. -/
theorem ParseWithClaims_other_alg (C : Crypto) (s : JWTTrackedRequestCodec) (now : Time)
    (signed : SignedString) (key : rsa.PublicKey)
    (h : signed.header.alg ≠ some s.SigningMethod.Alg) :
    ∃ e, (Decode.parser s).ParseWithClaims C now signed key = .error e ∧
      (e.Errors = 2 ∨ e.Errors = 4) := by
  cases halg : signed.header.alg with
  | none =>
    refine ⟨NewValidationError "signing method (alg) is unspecified."
      ValidationErrorUnverifiable, ?_, Or.inl rfl⟩
    simp only [Parser.ParseWithClaims, Parser.ParseUnverified, halg]
  | some a =>
    cases hm : GetSigningMethod a with
    | none =>
      refine ⟨NewValidationError "signing method (alg) is unavailable."
        ValidationErrorUnverifiable, ?_, Or.inl rfl⟩
      simp only [Parser.ParseWithClaims, Parser.ParseUnverified, halg, hm]
    | some m =>
      have hma : m.Alg = a := Alg_of_GetSigningMethod hm
      have hne : ¬ s.SigningMethod.Alg = a := by
        intro e
        apply h
        rw [halg, e]
      refine ⟨NewValidationError ("signing method " ++ a ++ " is invalid")
        ValidationErrorSignatureInvalid, ?_, Or.inr rfl⟩
      simp [Parser.ParseWithClaims, Parser.ParseUnverified, halg, hm, Decode.parser, hma, hne]

/-- The parse inside `Decode` on a token whose header names the configured algorithm: the time
checks and the signature check decide. -/
theorem ParseWithClaims_same_alg (C : Crypto) (s : JWTTrackedRequestCodec) (now : Time)
    (signed : SignedString) (key : rsa.PublicKey)
    (h : signed.header.alg = some s.SigningMethod.Alg) :
    (Decode.parser s).ParseWithClaims C now signed key =
      match (unmarshalClaims signed.claims).RegisteredClaims.Valid now,
          C.Verify s.SigningMethod signed.signingString signed.signature key with
      | Option.none, true => .ok (unmarshalClaims signed.claims)
      | Option.none, false =>
        .error { Inner := some .verification, Errors := 4, text := "" }
      | some e, true => if e.valid then .ok (unmarshalClaims signed.claims) else .error e
      | some e, false =>
        if (e.Errors ||| 4) == 0 then .ok (unmarshalClaims signed.claims)
        else .error { e with Inner := some .verification, Errors := e.Errors ||| 4 } := by
  unfold Parser.ParseWithClaims Parser.ParseUnverified
  simp only [h, GetSigningMethod_Alg, Decode.parser]
  cases hv : (unmarshalClaims signed.claims).RegisteredClaims.Valid now <;>
    cases hs : C.Verify s.SigningMethod signed.signingString signed.signature key <;>
    simp [ValidationError.valid, ValidationErrorSignatureInvalid]

/-- C2: Decode hands the parser exactly the one-element list holding the identifier of the
configured signing method, and every token whose header names another algorithm (or none at
all) is rejected with an error, whatever its claims and signature. -/
theorem Decode_algorithm_pinning (C : Crypto) (s : JWTTrackedRequestCodec) :
    (Decode.parser s).ValidMethods = some [s.SigningMethod.Alg] ∧
    ∀ (now : Time) (signed : SignedString), signed.header.alg ≠ some s.SigningMethod.Alg →
      ∃ err, s.Decode C now signed = .error err := by
  refine ⟨rfl, ?_⟩
  intro now signed h
  obtain ⟨e, he, -⟩ := ParseWithClaims_other_alg C s now signed s.Key.Public h
  refine ⟨.parse e, ?_⟩
  unfold JWTTrackedRequestCodec.Decode
  simp only [he]

theorem Valid_some_not_valid {c : RegisteredClaims} {now : Time} {e : ValidationError}
    (h : c.Valid now = some e) : e.Errors ≠ 0 ∧ (e.Errors ||| 4) ≠ 0 := by
  rcases Valid_cases c now with ⟨h0, -⟩ | ⟨e', he', hcases⟩
  · rw [h0] at h; cases h
  · rw [he'] at h
    cases h
    rcases hcases with ⟨-, h1 | h1 | h1⟩ | ⟨-, h1 | h1 | h1 | h1⟩ <;> rw [h1] <;> decide

/-- The parse inside `Decode` succeeds exactly on a token that names the configured algorithm,
passes the time checks and carries a signature the method verifies; it yields the unmarshalled
claims. -/
theorem ParseWithClaims_ok_iff (C : Crypto) (s : JWTTrackedRequestCodec) (now : Time)
    (signed : SignedString) (key : rsa.PublicKey) (claims : JWTTrackedRequestClaims) :
    (Decode.parser s).ParseWithClaims C now signed key = .ok claims ↔
      signed.header.alg = some s.SigningMethod.Alg ∧
      (unmarshalClaims signed.claims).RegisteredClaims.Valid now = Option.none ∧
      C.Verify s.SigningMethod signed.signingString signed.signature key = true ∧
      claims = unmarshalClaims signed.claims := by
  by_cases halg : signed.header.alg = some s.SigningMethod.Alg
  · rw [ParseWithClaims_same_alg C s now signed key halg]
    cases hv : (unmarshalClaims signed.claims).RegisteredClaims.Valid now with
    | none =>
      cases hs : C.Verify s.SigningMethod signed.signingString signed.signature key
      · simp
      · simp [halg, eq_comm]
    | some e =>
      have hne := Valid_some_not_valid hv
      cases hs : C.Verify s.SigningMethod signed.signingString signed.signature key <;>
        simp [ValidationError.valid, hne.1, hne.2]
  · obtain ⟨e, he, -⟩ := ParseWithClaims_other_alg C s now signed key halg
    rw [he]
    simp [halg]

/-- Decode succeeds exactly on a token that passes the parse, the audience check, the issuer
check and the flag check; the request it returns takes its index from the subject claim. -/
theorem Decode_ok_iff (C : Crypto) (s : JWTTrackedRequestCodec) (now : Time)
    (signed : SignedString) (r : TrackedRequest) :
    s.Decode C now signed = .ok r ↔
      signed.header.alg = some s.SigningMethod.Alg ∧
      (unmarshalClaims signed.claims).RegisteredClaims.Valid now = Option.none ∧
      C.Verify s.SigningMethod signed.signingString signed.signature s.Key.Public = true ∧
      verifyAud (signed.claims.aud.getD []) s.Audience true = true ∧
      verifyIss (signed.claims.iss.getD "") s.Issuer true = true ∧
      signed.claims.samlAuthnRequest.getD false = true ∧
      r = { Index := GoString.ofText (signed.claims.sub.getD ""),
            Fields := GoString.ofText (signed.claims.fields.getD "") } := by
  cases hp : (Decode.parser s).ParseWithClaims C now signed s.Key.Public with
  | error e =>
    simp only [JWTTrackedRequestCodec.Decode, hp]
    have hno : ¬ (signed.header.alg = some s.SigningMethod.Alg ∧
        (unmarshalClaims signed.claims).RegisteredClaims.Valid now = Option.none ∧
        C.Verify s.SigningMethod signed.signingString signed.signature s.Key.Public = true) := by
      intro h
      have := (ParseWithClaims_ok_iff C s now signed s.Key.Public
        (unmarshalClaims signed.claims)).2 ⟨h.1, h.2.1, h.2.2, rfl⟩
      rw [hp] at this
      cases this
    constructor
    · intro h
      cases h
    · intro h
      exact absurd ⟨h.1, h.2.1, h.2.2.1⟩ hno
  | ok claims =>
    obtain ⟨h1, h2, h3, h4⟩ := (ParseWithClaims_ok_iff C s now signed s.Key.Public claims).1 hp
    subst h4
    have h2u := h2
    simp only [unmarshalClaims] at h2u
    simp only [JWTTrackedRequestCodec.Decode, hp, h1, h2u, h3, true_and,
      RegisteredClaims.VerifyAudience, RegisteredClaims.VerifyIssuer, unmarshalClaims]
    cases ha : verifyAud (signed.claims.aud.getD []) s.Audience true
    · simp
    · cases hi : verifyIss (signed.claims.iss.getD "") s.Issuer true
      · simp
      · cases hf : signed.claims.samlAuthnRequest.getD false
        · simp
        · simp [eq_comm]

/-- Decode either returns a request or an error. -/
theorem Decode_error_of_not_ok (C : Crypto) (s : JWTTrackedRequestCodec) (now : Time)
    (signed : SignedString) (h : ∀ r, s.Decode C now signed ≠ .ok r) :
    ∃ err, s.Decode C now signed = .error err := by
  cases hd : s.Decode C now signed with
  | error e => exact ⟨e, rfl⟩
  | ok r => exact absurd hd (h r)

theorem unmarshalDate_Time (sec : Int) : (unmarshalDate sec).Time = ofUnix sec := by
  simp only [unmarshalDate, NewNumericDate, Truncate_Second, ofUnix, Second]
  unfold Time
  omega

theorem VerifyExpiresAt_unmarshal (j : ClaimsJSON) (now : Time) :
    (unmarshalClaims j).RegisteredClaims.VerifyExpiresAt now false =
      match j.exp with
      | none => true
      | some e => decide (now < ofUnix e) := by
  cases h : j.exp <;>
    simp [unmarshalClaims, RegisteredClaims.VerifyExpiresAt, verifyExp, h, Before,
      unmarshalDate_Time]

theorem VerifyIssuedAt_unmarshal (j : ClaimsJSON) (now : Time) :
    (unmarshalClaims j).RegisteredClaims.VerifyIssuedAt now false =
      match j.iat with
      | none => true
      | some i => decide (ofUnix i ≤ now) := by
  cases h : j.iat with
  | none => simp [unmarshalClaims, RegisteredClaims.VerifyIssuedAt, verifyIat, h]
  | some i =>
    simp only [unmarshalClaims, RegisteredClaims.VerifyIssuedAt, verifyIat, h, After, Equal,
      unmarshalDate_Time, Option.map_some']
    by_cases h1 : ofUnix i < now
    · simp [h1, le_of_lt h1]
    · by_cases h2 : now = ofUnix i
      · simp [h2]
      · have : ¬ ofUnix i ≤ now := by
          unfold Time at *
          omega
        simp [h1, h2, this]

theorem VerifyNotBefore_unmarshal (j : ClaimsJSON) (now : Time) :
    (unmarshalClaims j).RegisteredClaims.VerifyNotBefore now false =
      match j.nbf with
      | none => true
      | some n => decide (ofUnix n ≤ now) := by
  cases h : j.nbf with
  | none => simp [unmarshalClaims, RegisteredClaims.VerifyNotBefore, verifyNbf, h]
  | some i =>
    simp only [unmarshalClaims, RegisteredClaims.VerifyNotBefore, verifyNbf, h, After, Equal,
      unmarshalDate_Time, Option.map_some']
    by_cases h1 : ofUnix i < now
    · simp [h1, le_of_lt h1]
    · by_cases h2 : now = ofUnix i
      · simp [h2]
      · have : ¬ ofUnix i ≤ now := by
          unfold Time at *
          omega
        simp [h1, h2, this]

/-- An expired token is rejected by the parse inside Decode; the bit field of the error is one
of the values below, each of which has the expired bit set or comes from the algorithm checks
that run before the time checks. -/
theorem Decode_expired (C : Crypto) (s : JWTTrackedRequestCodec) (now : Time)
    (signed : SignedString) (e : Int) (hexp : signed.claims.exp = some e)
    (hnow : ofUnix e ≤ now) :
    ∃ err, s.Decode C now signed = .error (.parse err) ∧
      err.Errors ∈ [2, 4, 16, 48, 144, 176, 20, 52, 148, 180] := by
  have hx : (unmarshalClaims signed.claims).RegisteredClaims.VerifyExpiresAt now false
      = false := by
    rw [VerifyExpiresAt_unmarshal, hexp]
    simp only [decide_eq_false_iff_not, not_lt]
    exact hnow
  by_cases halg : signed.header.alg = some s.SigningMethod.Alg
  · rcases Valid_cases (unmarshalClaims signed.claims).RegisteredClaims now with
      ⟨-, h1, -⟩ | ⟨ve, hve, ⟨h1, -⟩ | ⟨-, hE⟩⟩
    · rw [hx] at h1; cases h1
    · rw [hx] at h1; cases h1
    · have hne := Valid_some_not_valid hve
      cases hs : C.Verify s.SigningMethod signed.signingString signed.signature s.Key.Public
      · refine ⟨{ ve with Inner := some .verification, Errors := ve.Errors ||| 4 }, ?_, ?_⟩
        · simp [JWTTrackedRequestCodec.Decode,
            ParseWithClaims_same_alg C s now signed s.Key.Public halg, hve, hs, hne.2]
        · rcases hE with h | h | h | h <;> simp only [h] <;> decide
      · refine ⟨ve, ?_, ?_⟩
        · simp [JWTTrackedRequestCodec.Decode,
            ParseWithClaims_same_alg C s now signed s.Key.Public halg, hve, hs,
            ValidationError.valid, hne.1]
        · rcases hE with h | h | h | h <;> simp only [h] <;> decide
  · obtain ⟨ve, hve, hE⟩ := ParseWithClaims_other_alg C s now signed s.Key.Public halg
    refine ⟨ve, ?_, ?_⟩
    · simp [JWTTrackedRequestCodec.Decode, hve]
    · rcases hE with h | h <;> simp only [h] <;> decide

/-- C2 at sample inputs: a token whose header names the unsecured algorithm is rejected. -/
theorem Decode_algorithm_pinning_witness :
    ∃ err, sampleCodec.Decode toyCrypto sampleNow noneAlgToken = .error err :=
  (Decode_algorithm_pinning toyCrypto sampleCodec).2 sampleNow noneAlgToken (by decide)

/-- C3: for every token that passes the parse (algorithm, time checks, signature) and the
audience, issuer and flag checks, Decode succeeds and the request it returns has the subject
claim of the token as its index, whatever index the payload carries; the other fields are those
of the payload. -/
theorem Decode_subject_authority (C : Crypto) (s : JWTTrackedRequestCodec) (now : Time)
    (signed : SignedString) (claims : JWTTrackedRequestClaims)
    (hparse : (Decode.parser s).ParseWithClaims C now signed s.Key.Public = .ok claims)
    (haud : claims.RegisteredClaims.VerifyAudience s.Audience true = true)
    (hiss : claims.RegisteredClaims.VerifyIssuer s.Issuer true = true)
    (hflag : claims.SAMLAuthnRequest = true) :
    s.Decode C now signed =
      .ok { Index := GoString.ofText (signed.claims.sub.getD ""),
            Fields := GoString.ofText (signed.claims.fields.getD "") } := by
  obtain ⟨h1, h2, h3, h4⟩ := (ParseWithClaims_ok_iff C s now signed s.Key.Public claims).1 hparse
  subst h4
  exact (Decode_ok_iff C s now signed _).2 ⟨h1, h2, h3, haud, hiss, hflag, rfl⟩

/-- Witness for C3: a verified token whose payload says index "X" and whose subject claim is
"Y" decodes to index "Y". -/
theorem Decode_subject_authority_witness :
    forgedIndexToken.claims.index = some "X" ∧ forgedIndexToken.claims.sub = some "Y" ∧
    sampleCodec.Decode toyCrypto sampleNow forgedIndexToken
      = .ok { Index := GoString.ofText "Y", Fields := GoString.ofText "/frob" } :=
  ⟨rfl, rfl, Decode_subject_authority toyCrypto sampleCodec sampleNow forgedIndexToken
    (unmarshalClaims forgedIndexToken.claims) (by decide) (by decide) (by decide) (by decide)⟩

/-- C7: every token whose saml-authn-request flag is missing or false is rejected by Decode
with an error; when the token passes the parse and the audience and issuer checks, the error is
the one Decode makes for the flag. -/
theorem Decode_requires_saml_authn_request (C : Crypto) (s : JWTTrackedRequestCodec)
    (now : Time) (signed : SignedString)
    (hflag : signed.claims.samlAuthnRequest = none ∨
      signed.claims.samlAuthnRequest = some false) :
    (∃ err, s.Decode C now signed = .error err) ∧
    ∀ claims, (Decode.parser s).ParseWithClaims C now signed s.Key.Public = .ok claims →
      claims.RegisteredClaims.VerifyAudience s.Audience true = true →
      claims.RegisteredClaims.VerifyIssuer s.Issuer true = true →
      s.Decode C now signed = .error .expectedSAMLAuthnRequest := by
  have hf : signed.claims.samlAuthnRequest.getD false = false := by
    rcases hflag with h | h <;> rw [h] <;> rfl
  constructor
  · apply Decode_error_of_not_ok
    intro r hr
    have := ((Decode_ok_iff C s now signed r).1 hr).2.2.2.2.2.1
    rw [hf] at this
    cases this
  · intro claims hparse haud hiss
    obtain ⟨-, -, -, h4⟩ := (ParseWithClaims_ok_iff C s now signed s.Key.Public claims).1 hparse
    subst h4
    have hf2 : (unmarshalClaims signed.claims).SAMLAuthnRequest = false := hf
    simp only [JWTTrackedRequestCodec.Decode, hparse, haud, hiss, hf2]
    rfl

/-- Witness for C7: the sample token without its flag passes every other check and is
rejected. -/
theorem Decode_requires_saml_authn_request_witness :
    sampleCodec.Decode toyCrypto sampleNow noFlagToken = .error .expectedSAMLAuthnRequest :=
  (Decode_requires_saml_authn_request toyCrypto sampleCodec sampleNow noFlagToken
    (Or.inl rfl)).2 (unmarshalClaims noFlagToken.claims) (by decide) (by decide) (by decide)

theorem verifyAud_true_mem (aud : List String) (cmp : String)
    (h : verifyAud aud cmp true = true) : cmp ∈ aud := by
  by_contra hn
  rw [verifyAud_of_not_mem aud cmp hn] at h
  cases h

/-- A token with the configured algorithm, a verifying signature and no expiry in the past, whose
audience or issuer does not match, is rejected; a parser error for it has none of the bits an
expired token gets. -/
theorem Decode_mismatch_error (C : Crypto) (s : JWTTrackedRequestCodec) (now : Time)
    (signed : SignedString)
    (halg : signed.header.alg = some s.SigningMethod.Alg)
    (hsig : C.Verify s.SigningMethod signed.signingString signed.signature s.Key.Public = true)
    (hunexp : ∀ e, signed.claims.exp = some e → now < ofUnix e)
    (hmis : s.Audience ∉ signed.claims.aud.getD [] ∨ signed.claims.iss ≠ some s.Issuer) :
    ∃ err, s.Decode C now signed = .error err ∧
      ∀ ve, err = .parse ve → ve.Errors ∈ [32, 128, 160] := by
  have hx : (unmarshalClaims signed.claims).RegisteredClaims.VerifyExpiresAt now false
      = true := by
    rw [VerifyExpiresAt_unmarshal]
    cases hexp : signed.claims.exp with
    | none => rfl
    | some e => simpa using hunexp e hexp
  rcases Valid_cases (unmarshalClaims signed.claims).RegisteredClaims now with
    ⟨hv, -⟩ | ⟨ve, hve, ⟨-, hE⟩ | ⟨h1, -⟩⟩
  · have hparse := (ParseWithClaims_ok_iff C s now signed s.Key.Public
      (unmarshalClaims signed.claims)).2 ⟨halg, hv, hsig, rfl⟩
    cases ha : verifyAud (signed.claims.aud.getD []) s.Audience true
    · refine ⟨.expectedAudience s.Audience (signed.claims.aud.getD []), ?_, ?_⟩
      · simp only [JWTTrackedRequestCodec.Decode, hparse, RegisteredClaims.VerifyAudience]
        simp [unmarshalClaims, ha]
      · intro ve h; cases h
    · have hiss : verifyIss (signed.claims.iss.getD "") s.Issuer true = false := by
        rcases hmis with h | h
        · exact absurd (verifyAud_true_mem _ _ ha) h
        · exact verifyIss_of_ne _ _ h
      refine ⟨.expectedIssuer s.Issuer (signed.claims.iss.getD ""), ?_, ?_⟩
      · simp only [JWTTrackedRequestCodec.Decode, hparse, RegisteredClaims.VerifyAudience,
          RegisteredClaims.VerifyIssuer]
        simp [unmarshalClaims, ha, hiss]
      · intro ve h; cases h
  · have hne := Valid_some_not_valid hve
    refine ⟨.parse ve, ?_, ?_⟩
    · simp [JWTTrackedRequestCodec.Decode,
        ParseWithClaims_same_alg C s now signed s.Key.Public halg, hve, hsig,
        ValidationError.valid, hne.1]
    · intro ve' h
      cases h
      rcases hE with h | h | h <;> simp only [h] <;> decide
  · rw [hx] at h1; cases h1

/-- C4: every token that names the configured algorithm, carries a verifying signature and is
not expired at the decode clock, and whose audience claim does not contain the configured
audience or whose issuer claim differs from the configured issuer, is rejected by Decode with an
error; every expired token is rejected too, and with a different error. -/
theorem Decode_audience_issuer_enforced (C : Crypto) (s : JWTTrackedRequestCodec) (now : Time)
    (signed : SignedString)
    (halg : signed.header.alg = some s.SigningMethod.Alg)
    (hsig : C.Verify s.SigningMethod signed.signingString signed.signature s.Key.Public = true)
    (hunexp : ∀ e, signed.claims.exp = some e → now < ofUnix e)
    (hmis : s.Audience ∉ signed.claims.aud.getD [] ∨ signed.claims.iss ≠ some s.Issuer) :
    ∃ err, s.Decode C now signed = .error err ∧
      ∀ (now' : Time) (expired : SignedString) (e : Int),
        expired.claims.exp = some e → ofUnix e ≤ now' →
        ∃ err', s.Decode C now' expired = .error err' ∧ err' ≠ err := by
  obtain ⟨err, herr, hbits⟩ := Decode_mismatch_error C s now signed halg hsig hunexp hmis
  refine ⟨err, herr, ?_⟩
  intro now' expired e hexp hnow
  obtain ⟨ve, hve, hE⟩ := Decode_expired C s now' expired e hexp hnow
  refine ⟨.parse ve, hve, ?_⟩
  intro heq
  have h1 := hbits ve heq.symm
  simp only [List.mem_cons, List.mem_singleton, List.not_mem_nil, or_false] at h1 hE
  omega

/-- Witness for C4: the sample token with another audience is rejected at the sample clock, and
the sample token itself, read one hour later, is rejected with a different error. -/
theorem Decode_audience_issuer_enforced_witness :
    ∃ err, sampleCodec.Decode toyCrypto sampleNow otherAudienceToken = .error err ∧
      ∃ err', sampleCodec.Decode toyCrypto (sampleNow + 3600 * Second) sampleToken
        = .error err' ∧ err' ≠ err := by
  obtain ⟨err, h1, h2⟩ := Decode_audience_issuer_enforced toyCrypto sampleCodec sampleNow
    otherAudienceToken (by decide) (by decide)
    (by intro e he; cases he; decide) (Or.inl (by decide))
  exact ⟨err, h1, h2 (sampleNow + 3600 * Second) sampleToken 1448935119 rfl (by decide)⟩

theorem omitEmpty_getD (a : String) : (omitEmpty a).getD "" = a := by
  unfold omitEmpty
  split
  · next h => simp [h]
  · rfl

theorem Valid_none_of_checks (c : RegisteredClaims) (now : Time)
    (hx : c.VerifyExpiresAt now false = true) (hy : c.VerifyIssuedAt now false = true)
    (hz : c.VerifyNotBefore now false = true) : c.Valid now = Option.none := by
  simp [RegisteredClaims.Valid, hx, hy, hz, ValidationError.valid]

/-- What a successful `Encode` returns: the header naming the configured method, the marshalled
claims, and the signature of the method over these two segments. -/
theorem Encode_ok_parts (C : Crypto) (s : JWTTrackedRequestCodec) (t : Time)
    (r : TrackedRequest) (signed : SignedString) (h : s.Encode C t r = .ok signed) :
    signed.header = { typ := some "JWT", alg := some s.SigningMethod.Alg } ∧
    signed.claims = marshalClaims (Encode.claims s t r) ∧
    C.Sign s.SigningMethod signed.signingString s.Key = some signed.signature := by
  simp only [JWTTrackedRequestCodec.Encode, Token.SignedString, NewWithClaims,
    Token.SigningString] at h
  split at h
  · cases h
  · next sig hs =>
    cases h
    exact ⟨rfl, rfl, hs⟩

theorem ValidCodec.Encode_ok {C : Crypto} {s : JWTTrackedRequestCodec} (h : ValidCodec C s)
    (t : Time) (r : TrackedRequest) : ∃ signed, s.Encode C t r = .ok signed := by
  obtain ⟨sig, hs, -⟩ := h.2.2.2 (NewWithClaims s.SigningMethod (Encode.claims s t r)).SigningString
  refine ⟨{ header := { typ := some "JWT", alg := some s.SigningMethod.Alg },
             claims := marshalClaims (Encode.claims s t r),
             signature := sig }, ?_⟩
  have hs2 : C.Sign (NewWithClaims s.SigningMethod (Encode.claims s t r)).Method
      (NewWithClaims s.SigningMethod (Encode.claims s t r)).SigningString s.Key = some sig := hs
  simp only [JWTTrackedRequestCodec.Encode, Token.SignedString, hs2]
  rfl

/-- The token `Encode` made at clock `t` decodes, at every clock `c` from the truncated `t` up
to, but not including, the truncated `t + MaxAge`, to the request with its strings coerced to
valid UTF-8. -/
theorem Decode_of_Encode {C : Crypto} {s : JWTTrackedRequestCodec} (h : ValidCodec C s)
    (t c : Time) (r : TrackedRequest) (signed : SignedString)
    (henc : s.Encode C t r = .ok signed)
    (h1 : Truncate t Second ≤ c) (h2 : c < Truncate (time.Add t s.MaxAge) Second) :
    s.Decode C c signed = .ok r.toValidUTF8 := by
  obtain ⟨hh, hc, hs⟩ := Encode_ok_parts C s t r signed henc
  obtain ⟨sig, hsig, hver⟩ := h.2.2.2 signed.signingString
  rw [hs] at hsig
  cases hsig
  simp only [Truncate, Second, time.Add] at h1 h2
  have hexp : signed.claims.exp = some (Unix (Truncate (Truncate (time.Add t s.MaxAge)
      TimePrecision) TimePrecision)) := by rw [hc]; rfl
  have hiat : signed.claims.iat = some (Unix (Truncate (Truncate t
      TimePrecision) TimePrecision)) := by rw [hc]; rfl
  have hnbf : signed.claims.nbf = some (Unix (Truncate (Truncate t
      TimePrecision) TimePrecision)) := by rw [hc]; rfl
  refine (Decode_ok_iff C s c signed r.toValidUTF8).2 ⟨by rw [hh], ?_, hver, ?_, ?_, ?_, ?_⟩
  · apply Valid_none_of_checks
    · rw [VerifyExpiresAt_unmarshal, hexp]
      simp only [Truncate_Second, Unix, ofUnix, Second, time.Add, decide_eq_true_eq]
      unfold Time Duration at *
      omega
    · rw [VerifyIssuedAt_unmarshal, hiat]
      simp only [Truncate_Second, Unix, ofUnix, Second, decide_eq_true_eq]
      unfold Time Duration at *
      omega
    · rw [VerifyNotBefore_unmarshal, hnbf]
      simp only [Truncate_Second, Unix, ofUnix, Second, decide_eq_true_eq]
      unfold Time Duration at *
      omega
  · rw [hc]
    simpa [marshalClaims, Encode.claims] using verifyAud_singleton s.Audience h.1
  · rw [hc]
    simpa [marshalClaims, Encode.claims, omitEmpty_getD] using verifyIss_self s.Issuer h.2.1
  · rw [hc]; rfl
  · rw [hc]
    simp only [marshalClaims, Encode.claims, Option.getD_some, GoString.ofText_omitEmptyGo]
    rfl

/-- C1, amended: for every valid codec configuration, every clock reading and every tracked
request, Encode returns a token, and Decode of that token at the same clock reading succeeds and
returns the request with each byte of its strings that is not valid UTF-8 replaced by U+FFFD;
when the index and the fields of the request are valid UTF-8, it returns the request itself (its
index included). -/
theorem Decode_Encode_round_trip (C : Crypto) (s : JWTTrackedRequestCodec)
    (h : ValidCodec C s) (now : Time) (r : TrackedRequest) :
    ∃ signed, s.Encode C now r = .ok signed ∧
      s.Decode C now signed = .ok r.toValidUTF8 ∧
      (r.Index.ValidUTF8 → r.Fields.ValidUTF8 → s.Decode C now signed = .ok r) := by
  obtain ⟨signed, henc⟩ := h.Encode_ok now r
  have hdec : s.Decode C now signed = .ok r.toValidUTF8 := by
    apply Decode_of_Encode h now now r signed henc
    · simp only [Truncate, Second]
      unfold Time at *
      split <;> omega
    · have hm := h.2.2.1
      simp only [Truncate, Second, time.Add] at *
      unfold Time Duration at *
      split <;> omega
  refine ⟨signed, henc, hdec, ?_⟩
  intro hi hf
  rw [hdec]
  simp only [TrackedRequest.toValidUTF8, GoString.toValidUTF8_of_valid _ hi,
    GoString.toValidUTF8_of_valid _ hf]

theorem sampleCodec_valid : ValidCodec toyCrypto sampleCodec :=
  ⟨by decide, by decide, by decide, fun sstr => ⟨_, rfl, by simp [toyCrypto, rsa.PrivateKey.Public]⟩⟩

/-- Witness for C1, amended: the sample request, whose strings are valid UTF-8, round-trips
under the sample configuration, at a clock reading with a fraction of a second. -/
theorem Decode_Encode_round_trip_witness :
    ∃ signed, sampleCodec.Encode toyCrypto sampleNow sampleRequest = .ok signed ∧
      sampleCodec.Decode toyCrypto sampleNow signed = .ok sampleRequest := by
  obtain ⟨signed, h1, -, h3⟩ :=
    Decode_Encode_round_trip toyCrypto sampleCodec sampleCodec_valid sampleNow sampleRequest
  exact ⟨signed, h1, h3 ⟨"id-1", rfl⟩ ⟨"/frob", rfl⟩⟩

/-- C1, as stated, fails: under the sample configuration, a request whose index ends in the
byte 0xFF is encoded with that byte written as U+FFFD, and Decode of the token at the same clock
reading returns a request whose index ends in U+FFFD, which is not the request encoded. -/
theorem invalid_utf8_index_not_restored :
    sampleCodec.Encode toyCrypto sampleNow invalidIndexRequest = .ok invalidIndexToken ∧
    sampleCodec.Decode toyCrypto sampleNow invalidIndexToken
      = .ok { Index := GoString.ofText "id-\uFFFD", Fields := GoString.ofText "/frob" } ∧
    ({ Index := GoString.ofText "id-\uFFFD", Fields := GoString.ofText "/frob" } : TrackedRequest)
      ≠ invalidIndexRequest := by
  decide

/-- C5, as stated, fails: with a maximum age of zero, the token Encode makes at a clock reading
is rejected one second before that reading plus the maximum age, because the clock is then
earlier than the issued-at and not-before claims of the token. -/
theorem zero_max_age_rejected_before_expiry :
    zeroAgeCodec.Encode toyCrypto sampleNow sampleRequest = .ok zeroAgeToken ∧
    zeroAgeCodec.Decode toyCrypto (time.Add sampleNow zeroAgeCodec.MaxAge - Second) zeroAgeToken
      = .error (.parse { Inner := some .tokenNotValidYet, Errors := 160, text := "" }) := by
  decide

/-- C5, amended: every token Encode makes at clock reading t is rejected by Decode one second
after t + MaxAge, and every token whose expires-at is earlier than the clock at decode time is
rejected; when the codec configuration is valid (non-empty audience and issuer text, a key the
method signs and verifies with, a maximum age of at least one second), Encode at t returns a
token and Decode of it one second before t + MaxAge succeeds, returning the request with its
strings coerced to valid UTF-8, which is the request itself when its strings are valid UTF-8. -/
theorem Decode_expiry_boundary (C : Crypto) (s : JWTTrackedRequestCodec) :
    (ValidCodec C s → ∀ (t : Time) (r : TrackedRequest),
      ∃ signed, s.Encode C t r = .ok signed ∧
        s.Decode C (time.Add t s.MaxAge - Second) signed = .ok r.toValidUTF8 ∧
        (r.Index.ValidUTF8 → r.Fields.ValidUTF8 →
          s.Decode C (time.Add t s.MaxAge - Second) signed = .ok r)) ∧
    (∀ (t : Time) (r : TrackedRequest) (signed : SignedString), s.Encode C t r = .ok signed →
      ∃ err, s.Decode C (time.Add t s.MaxAge + Second) signed = .error err) ∧
    ∀ (now : Time) (tok : SignedString) (e : Int), tok.claims.exp = some e →
      ofUnix e < now → ∃ err, s.Decode C now tok = .error err := by
  refine ⟨?_, ?_, ?_⟩
  · intro h t r
    obtain ⟨signed, henc⟩ := h.Encode_ok t r
    have hm := h.2.2.1
    have hdec : s.Decode C (time.Add t s.MaxAge - Second) signed = .ok r.toValidUTF8 := by
      apply Decode_of_Encode h t _ r signed henc
      · simp only [Truncate, Second, time.Add] at *
        unfold Time Duration at *
        split <;> omega
      · simp only [Truncate, Second, time.Add] at *
        unfold Time Duration at *
        split <;> omega
    refine ⟨signed, henc, hdec, ?_⟩
    intro hi hf
    rw [hdec]
    simp only [TrackedRequest.toValidUTF8, GoString.toValidUTF8_of_valid _ hi,
      GoString.toValidUTF8_of_valid _ hf]
  · intro t r signed henc
    obtain ⟨-, hc, -⟩ := Encode_ok_parts C s t r signed henc
    have hexp : signed.claims.exp = some (Unix (Truncate (Truncate (time.Add t s.MaxAge)
        TimePrecision) TimePrecision)) := by rw [hc]; rfl
    obtain ⟨ve, hve, -⟩ := Decode_expired C s (time.Add t s.MaxAge + Second) signed _ hexp (by
      simp only [Truncate_Second, Unix, ofUnix, Second, time.Add]
      unfold Time Duration at *
      omega)
    exact ⟨_, hve⟩
  · intro now tok e hexp hlt
    obtain ⟨ve, hve, -⟩ := Decode_expired C s now tok e hexp (le_of_lt hlt)
    exact ⟨_, hve⟩

/-- C5, amended, at sample inputs: under the sample configuration, whose maximum age is ninety
seconds, the token made at the sample clock reading decodes one second before the reading plus
ninety seconds and is rejected one second after it. -/
theorem Decode_expiry_boundary_witness :
    sampleCodec.Encode toyCrypto sampleNow sampleRequest = .ok sampleToken ∧
    sampleCodec.Decode toyCrypto (time.Add sampleNow sampleCodec.MaxAge - Second) sampleToken
      = .ok sampleRequest ∧
    ∃ err, sampleCodec.Decode toyCrypto (time.Add sampleNow sampleCodec.MaxAge + Second)
      sampleToken = .error err := by
  have h := Decode_expiry_boundary toyCrypto sampleCodec
  obtain ⟨signed, h1, -, h2v⟩ := h.1 sampleCodec_valid sampleNow sampleRequest
  have h2 := h2v ⟨"id-1", rfl⟩ ⟨"/frob", rfl⟩
  have hs : signed = sampleToken := by
    have h3 : sampleCodec.Encode toyCrypto sampleNow sampleRequest = .ok sampleToken := by decide
    rw [h1] at h3
    cases h3
    rfl
  subst hs
  exact ⟨h1, h2, h.2.1 sampleNow sampleRequest sampleToken h1⟩

/-- C6, as stated, fails: at a clock reading with a fraction of a second the issued-at,
not-before and expires-at claims Encode builds are whole seconds, earlier than the clock reading
and than the clock reading plus the maximum age. -/
theorem Encode_claims_dates_truncated :
    sampleNow = 1448935029123456789 ∧
    (Encode.claims sampleCodec sampleNow sampleRequest).RegisteredClaims.IssuedAt
      = some ⟨1448935029000000000⟩ ∧
    (Encode.claims sampleCodec sampleNow sampleRequest).RegisteredClaims.IssuedAt
      ≠ some ⟨sampleNow⟩ ∧
    (Encode.claims sampleCodec sampleNow sampleRequest).RegisteredClaims.NotBefore
      ≠ some ⟨sampleNow⟩ ∧
    (Encode.claims sampleCodec sampleNow sampleRequest).RegisteredClaims.ExpiresAt
      ≠ some ⟨time.Add sampleNow sampleCodec.MaxAge⟩ := by
  decide

/-- C6, amended: the claims Encode signs are the marshalled claims value it builds, and that
value has audience equal to the one-element list holding the configured audience, issued-at and
not-before equal to now truncated to whole seconds, expires-at equal to now + MaxAge truncated
to whole seconds, issuer equal to the configured issuer, subject equal to the index of the
request, the saml-authn-request flag true and the request as payload; audience, issuer,
expires-at and flag are the same for every request. -/
theorem Encode_claims_from_configuration (C : Crypto) (s : JWTTrackedRequestCodec) (now : Time)
    (r : TrackedRequest) :
    (∀ signed, s.Encode C now r = .ok signed →
      signed.claims = marshalClaims (Encode.claims s now r) ∧
      C.Sign s.SigningMethod signed.signingString s.Key = some signed.signature) ∧
    (Encode.claims s now r).RegisteredClaims.Audience = [s.Audience] ∧
    (Encode.claims s now r).RegisteredClaims.IssuedAt = some ⟨now - now % Second⟩ ∧
    (Encode.claims s now r).RegisteredClaims.NotBefore = some ⟨now - now % Second⟩ ∧
    (Encode.claims s now r).RegisteredClaims.ExpiresAt
      = some ⟨(now + s.MaxAge) - (now + s.MaxAge) % Second⟩ ∧
    (Encode.claims s now r).RegisteredClaims.Issuer = s.Issuer ∧
    (Encode.claims s now r).RegisteredClaims.Subject = r.Index ∧
    (Encode.claims s now r).SAMLAuthnRequest = true ∧
    (Encode.claims s now r).TrackedRequest = r ∧
    ∀ r' : TrackedRequest,
      (Encode.claims s now r').RegisteredClaims.Audience
        = (Encode.claims s now r).RegisteredClaims.Audience ∧
      (Encode.claims s now r').RegisteredClaims.Issuer
        = (Encode.claims s now r).RegisteredClaims.Issuer ∧
      (Encode.claims s now r').RegisteredClaims.ExpiresAt
        = (Encode.claims s now r).RegisteredClaims.ExpiresAt ∧
      (Encode.claims s now r').SAMLAuthnRequest = (Encode.claims s now r).SAMLAuthnRequest := by
  refine ⟨?_, rfl, ?_, ?_, ?_, rfl, rfl, rfl, rfl, fun r' => ⟨rfl, rfl, rfl, rfl⟩⟩
  · intro signed h
    exact (Encode_ok_parts C s now r signed h).2
  · simp [Encode.claims, NewNumericDate, Truncate_Second, Second]
  · simp [Encode.claims, NewNumericDate, Truncate_Second, Second]
  · simp [Encode.claims, NewNumericDate, Truncate_Second, Second, time.Add]

/-- C6, amended, at sample inputs: the token Encode returns at the sample clock reading carries
the whole seconds of the clock reading as issued-at and not-before. -/
theorem Encode_claims_from_configuration_witness :
    sampleCodec.Encode toyCrypto sampleNow sampleRequest = .ok sampleToken ∧
    sampleToken.claims = marshalClaims (Encode.claims sampleCodec sampleNow sampleRequest) ∧
    sampleToken.claims.iat = some 1448935029 :=
  ⟨by decide,
    ((Encode_claims_from_configuration toyCrypto sampleCodec sampleNow sampleRequest).1
      sampleToken (by decide)).1, rfl⟩

end samlsp
